import Mathlib

/-
  Verification of the pnet_macros packet-layout compiler
  (src/pnet_macros/src/decorator.rs) against its specification.

  The decorator is a compile-time code generator: it classifies field types,
  validates field directives, walks the fields of a record keeping a bit
  offset and variable-length-offset accumulators, and emits accessor and
  mutator source text.  This file embeds those functions shallowly:

  * pure classification functions (parse_ty, make_type) are translated
    directly;
  * the directive extractor (make_packet) is translated with the host
    compiler's diagnostic sink modelled as an explicit list of diagnostics
    and the host token parser (ecx.parse_tts) passed in as a function
    argument;
  * the layout/codegen driver (generate_packet_impl and the handle_*
    helpers) is translated with its numeric and string state kept exactly
    (bit offsets, current-offset expression strings, error flag), while the
    emitted accessor/mutator source text is represented by structured
    records carrying exactly the values pasted into the source text
    (names, offsets, slice bounds).  The per-byte bit operations
    (util::operations, to_mutator, to_little_endian) live outside the
    sources under verification and only contribute opaque text, so they are
    not modelled.
-/

set_option linter.unusedVariables false

namespace Pnet

/-- util::Endianness as used by decorator.rs. -/
inductive Endianness where
  | Big
  | Little
deriving DecidableEq, Repr

/-- decorator.rs lines 34-42, `enum Type`:
    Primitive(name, size, endianness), Vector(inner), Misc(name). -/
inductive Ty where
  | Primitive (name : String) (size : Nat) (endianness : Endianness)
  | Vector (inner : Ty)
  | Misc (name : String)
deriving DecidableEq, Repr

def Ty.isPrimitive : Ty → Bool
  | .Primitive _ _ _ => true
  | _ => false

def Ty.isVector : Ty → Bool
  | .Vector _ => true
  | _ => false

def Ty.isMisc : Ty → Bool
  | .Misc _ => true
  | _ => false

/-- Numeric value of a digit string, most significant digit first
    (the value read by Rust str::parse on the regex capture). -/
def digitsVal (ds : List Char) : Nat :=
  ds.foldl (fun acc c => acc * 10 + (c.toNat - '0'.toNat)) 0

/-- Rust `str::parse::<usize>()` applied to the digit capture group:
    it errors (None) when the value overflows usize::MAX = 2^64 - 1
    (decorator.rs line 959, `if let Ok(sz) = size.parse()`). -/
def parseUsizeDigits (ds : List Char) : Option Nat :=
  if digitsVal ds ≤ 2 ^ 64 - 1 then some (digitsVal ds) else none

/-- The `(be|le)?$` tail of the regex `^u([0-9]+)(be|le)?$` together with the
    endianness selection of decorator.rs lines 949-957: after the maximal
    digit run, the remaining text must be empty (endianness defaults Big),
    "be" (Big) or "le" (Little); anything else means the regex does not
    match. -/
def suffixEndianness : List Char → Option Endianness
  | [] => some Endianness.Big
  | ['b', 'e'] => some Endianness.Big
  | ['l', 'e'] => some Endianness.Little
  | _ => none

/-- decorator.rs lines 940-967, `parse_ty`: match `^u([0-9]+)(be|le)?$`
    (since "be"/"le" contain no digit, the backtracking regex captures
    exactly the maximal digit run after the leading u), read the size with
    str::parse::<usize>, and pick the endianness from the suffix.  The
    always-true `iter.len() == 3 || iter.len() == 2` check of line 947 is
    elided (the regex has two groups, so Captures::len() is always 3). -/
def parse_ty_chars : List Char → Option (Nat × Endianness)
  | 'u' :: rest =>
    let digits := rest.takeWhile Char.isDigit
    let suffix := rest.dropWhile Char.isDigit
    if digits.isEmpty then none
    else
      match suffixEndianness suffix with
      | none => none
      | some e =>
        match parseUsizeDigits digits with
        | some sz => some (sz, e)
        | none => none
  | _ => none

/-- decorator.rs `parse_ty` on the string form. -/
def parse_ty (ty : String) : Option (Nat × Endianness) :=
  parse_ty_chars ty.toList

/-- decorator.rs lines 70-84, `make_type`, on the character list of the type
    text, with explicit fuel so that the recursion (on `&ty_str[4..len-1]`,
    here `(cs.drop 4).dropLast`) is structural and computes by kernel
    reduction.  Each recursive step removes five characters, so any fuel of
    at least `cs.length + 1` is enough and the fuel-exhausted branch is
    unreachable from `make_type`.  (For the four-character input "Vec<" the
    Rust slice `[4..3]` panics; that input never reaches the recursion in
    the claims below.) -/
def make_type_chars : Nat → List Char → Except String Ty
  | 0, cs => .error ("invalid type: " ++ String.mk cs)
  | fuel + 1, cs =>
    match parse_ty (String.mk cs) with
    | some (size, endianness) => .ok (.Primitive (String.mk cs) size endianness)
    | none =>
      if cs.take 4 = ['V', 'e', 'c', '<'] then
        match make_type_chars fuel ((cs.drop 4).dropLast) with
        | .ok ty => .ok (.Vector ty)
        | .error e => .error e
      else if cs.take 1 = ['&'] then
        .error ("invalid type: " ++ String.mk cs)
      else
        .ok (.Misc (String.mk cs))

/-- decorator.rs `make_type` (lines 70-84). -/
def make_type (ty_str : String) : Except String Ty :=
  make_type_chars (ty_str.toList.length + 1) ty_str.toList

/-- Diagnostics reported through ecx.span_err / span_note, one constructor
    per distinct message in decorator.rs (line numbers in comments). -/
inductive Diag where
  | lengthExprTok        -- 300-301: Only field names, constants, integers, basic
                         --   arithmetic expressions (+ - * / %) and parentheses are allowed
  | lengthExprFieldName  -- 313: Field name must be a member of the struct and
                         --   not the field itself
  | unnamedField         -- 94: all fields in a packet must be named
  | multiplePayloads     -- 110: packet may not have multiple payloads
  | unknownAttr (s : String)  -- 117 / 143 / 183: unknown attribute
  | emptyConstructWith   -- 125: construct_with must have at least one argument
  | badConstructWithArg  -- 138: construct_with should be of the form construct_with(<types>)
  | invalidType (e : String)  -- 133 / 200: the message produced by make_type
  | lengthFnForm         -- 155: length_fn should be used as length_fn = "name_of_function"
  | lengthForm           -- 178: length should be used as length = "..."
  | dupAttr              -- 193: cannot have two attributes with the same name
  | vecNeedsLength       -- 209-210: variable length field must have a length attribute
  | miscNeedsConstructWith  -- 216-217: non-primitive field types must specify construct_with
  | noPayload            -- 236: packets must contain a payload
deriving DecidableEq, Repr

/-- syntax::parse::token::IdentStyle. -/
inductive IdentStyle where
  | Plain
  | ModName
deriving DecidableEq, Repr

/-- syntax::parse::token::BinOpToken.  The five arithmetic operators are kept
    apart; every other binary-operator token (And, Or, Caret, Shl, Shr) takes
    the same error arm in parse_length_expr, so they are lumped together. -/
inductive BinOpKind where
  | Plus
  | Minus
  | Star
  | Slash
  | Percent
  | OtherOp
deriving DecidableEq, Repr

/-- The tokens distinguished by parse_length_expr (decorator.rs 302-358).
    `IntLit v suffixed` is token::Literal(Integer, suffix): the rewriter
    accepts it only with suffix None (`suffixed = false`).  `OtherTok`
    stands for every other token, all of which take the catch-all error
    arm of line 342. -/
inductive Tok where
  | Ident (name : String) (style : IdentStyle)
  | ModSep
  | BinOp (k : BinOpKind)
  | IntLit (val : Nat) (suffixed : Bool)
  | OtherTok
deriving DecidableEq, Repr

/-- syntax::ast::DelimToken. -/
inductive Delim where
  | Paren
  | Bracket
  | Brace
deriving DecidableEq, Repr

/-- syntax::ast::TokenTree: plain tokens, delimited groups, and macro
    sequence groups (TtSequence). -/
inductive TokenTree where
  | TtToken (t : Tok)
  | TtDelimited (d : Delim) (tts : List TokenTree)
  | TtSequence (tts : List TokenTree)

/-- A tree of the token stream returned by parse_length_expr.  Copied input
    tokens and rewritten delimited groups keep their shape; `Raw src` stands
    for the token stream `ecx.parse_tts(src)` spliced in by the rewrite rules
    (decorator.rs 307-309 and 318-320) — the host parser is outside the
    sources under verification, so the spliced text is kept as a string. -/
inductive OutTree where
  | OutToken (t : Tok)
  | OutDelimited (d : Delim) (tts : List OutTree)
  | Raw (src : String)

/-- decorator.rs line 305: `token::get_ident(name).chars().any(|c| c.is_lowercase())`.
    Identifiers in the DSL are ASCII, so char::is_lowercase is Char.isLower. -/
def has_lowercase (name : String) : Bool :=
  name.toList.any Char.isLower

mutual

/-- One iteration of the fold in parse_length_expr (decorator.rs 302-358):
    the token trees appended to acc_packet, paired with the diagnostics
    reported to ecx, for a single input tree. -/
def plengthTree (field_names : List String) : TokenTree → List OutTree × List Diag
  | .TtToken (.Ident name .Plain) =>
    if has_lowercase name then
      if field_names.contains name then
        ([.Raw ("self.get_" ++ name ++ "() as usize")], [])
      else
        ([], [.lengthExprFieldName])
    else
      ([.Raw (name ++ " as usize")], [])
  | .TtToken (.Ident name .ModName) => ([.OutToken (.Ident name .ModName)], [])
  | .TtToken .ModSep => ([.OutToken .ModSep], [])
  | .TtToken (.BinOp k) =>
    match k with
    | .Plus => ([.OutToken (.BinOp .Plus)], [])
    | .Minus => ([.OutToken (.BinOp .Minus)], [])
    | .Star => ([.OutToken (.BinOp .Star)], [])
    | .Slash => ([.OutToken (.BinOp .Slash)], [])
    | .Percent => ([.OutToken (.BinOp .Percent)], [])
    | .OtherOp => ([], [.lengthExprTok])
  | .TtToken (.IntLit v false) => ([.OutToken (.IntLit v false)], [])
  | .TtToken (.IntLit _ true) => ([], [.lengthExprTok])
  | .TtToken .OtherTok => ([], [.lengthExprTok])
  | .TtDelimited d tts =>
    let r := plengthList field_names tts
    ([.OutDelimited d r.1], r.2)
  | .TtSequence _ => ([], [.lengthExprTok])

/-- The fold of parse_length_expr over a token-tree list, in order. -/
def plengthList (field_names : List String) : List TokenTree → List OutTree × List Diag
  | [] => ([], [])
  | tt :: rest =>
    let a := plengthTree field_names tt
    let b := plengthList field_names rest
    (a.1 ++ b.1, a.2 ++ b.2)

end

/-- decorator.rs 297-362, `parse_length_expr`: the rewritten token stream
    together with the diagnostics reported to ecx (the Rust function reports
    them through span_err and returns only the tokens). -/
def parse_length_expr (tts : List TokenTree) (field_names : List String) :
    List OutTree × List Diag :=
  plengthList field_names tts

mutual

/-- Textual rendering of one output token, standing for
    syntax::print::pprust::tts_to_string (outside the sources under
    verification; exact spacing is immaterial to every claim). -/
def renderTree : OutTree → String
  | .OutToken (.Ident n _) => n
  | .OutToken .ModSep => "::"
  | .OutToken (.BinOp .Plus) => "+"
  | .OutToken (.BinOp .Minus) => "-"
  | .OutToken (.BinOp .Star) => "*"
  | .OutToken (.BinOp .Slash) => "/"
  | .OutToken (.BinOp .Percent) => "%"
  | .OutToken (.BinOp .OtherOp) => "?"
  | .OutToken (.IntLit v _) => toString v
  | .OutToken .OtherTok => "?"
  | .OutDelimited .Paren tts => "(" ++ renderTrees tts ++ ")"
  | .OutDelimited .Bracket tts => "[" ++ renderTrees tts ++ "]"
  | .OutDelimited .Brace tts => "\x7b" ++ renderTrees tts ++ "\x7d"
  | .Raw src => src

/-- Space-separated rendering of a token-tree list. -/
def renderTrees : List OutTree → String
  | [] => ""
  | [t] => renderTree t
  | t :: rest => renderTree t ++ " " ++ renderTrees rest

end

/-- pprust::tts_to_string on the rewritten stream (decorator.rs line 175). -/
def tts_to_string (l : List OutTree) : String :=
  renderTrees l

/-- syntax::ast::Lit as inspected by make_packet: only string literals
    matter (`ast::LitStr`); every other literal kind takes the error arm. -/
inductive Lit where
  | LitStr (s : String)
  | OtherLit
deriving DecidableEq, Repr

/-- syntax::ast::MetaItem: `#[word]`, `#[name(items...)]`, `#[name = lit]`. -/
inductive MetaItem where
  | Word (name : String)
  | MetaList (name : String) (items : List MetaItem)
  | NameValue (name : String) (value : Lit)

/-- A struct field as make_packet sees it: its identifier (None for tuple
    structs, which are rejected), its attributes, and the printed type text
    `ty_to_string(&field.node.ty)`. -/
structure StructField where
  ident : Option String
  attrs : List MetaItem
  ty_str : String

/-- decorator.rs lines 44-53, `struct Field`.  The source span (used only to
    place diagnostics) is omitted. -/
structure Field where
  name : String
  ty : Ty
  packet_length : Option String
  struct_length : Option String
  is_payload : Bool
  construct_with : Option (List Ty)
deriving DecidableEq, Repr

/-- decorator.rs lines 55-59, `struct Packet`. -/
structure Packet where
  base_name : String
  fields : List Field
deriving DecidableEq, Repr

/-- Head of `Vec::dedup` on the `seen` list (decorator.rs line 191):
    std's dedup removes only consecutive repeated elements, keeping the
    first of each run.  `dedupTail prev l` dedups `l` given that `prev`
    was the last kept element. -/
def dedupTail (prev : String) : List String → List String
  | [] => []
  | b :: rest => if prev = b then dedupTail prev rest else b :: dedupTail b rest

/-- `Vec::dedup`: remove consecutive repeated elements. -/
def rust_dedup : List String → List String
  | [] => []
  | a :: rest => a :: dedupTail a rest

/-- The per-field mutable state of the attribute loop in make_packet
    (decorator.rs lines 98-102), plus the shared payload span (modelled as
    the index of the payload field) and the diagnostics that
    parse_length_expr reported to ecx without aborting make_packet. -/
structure AttrState where
  is_payload : Bool
  packet_length : Option String
  construct_with : List Ty
  seen : List String
  pspan : Option Nat
  diags : List Diag
deriving DecidableEq, Repr

/-- The inner loop over `#[construct_with(...)]` items (decorator.rs
    lines 128-141): each item must be a bare word, and its make_type result
    is pushed; a make_type error or a non-word item aborts the field. -/
def process_cw_items : List MetaItem → List Ty → Except Diag (List Ty)
  | [], acc => .ok acc
  | .Word s :: rest, acc =>
    match make_type s with
    | .ok ty => process_cw_items rest (acc ++ [ty])
    | .error e => .error (.invalidType e)
  | _ :: _, _ => .error .badConstructWithArg

/-- One iteration of the attribute loop in make_packet (decorator.rs
    lines 103-188).  `ptts` is the host token parser ecx.parse_tts
    (outside the sources under verification), `all` is the full field list
    of the struct (used to compute sibling names for the length attribute),
    `field_name` the current field's name and `idx` its index (standing for
    its span). -/
def process_attr (ptts : String → List TokenTree) (all : List StructField)
    (field_name : String) (idx : Nat) (st : AttrState) :
    MetaItem → Except Diag AttrState
  | .Word s =>
    let st := { st with seen := st.seen ++ [s] }
    if s = "payload" then
      if st.pspan.isSome then .error .multiplePayloads
      else .ok { st with is_payload := true, pspan := some idx }
    else .error (.unknownAttr s)
  | .MetaList s items =>
    let st := { st with seen := st.seen ++ [s] }
    if s = "construct_with" then
      if items.length = 0 then .error .emptyConstructWith
      else
        match process_cw_items items st.construct_with with
        | .ok cw => .ok { st with construct_with := cw }
        | .error e => .error e
    else .error (.unknownAttr s)
  | .NameValue s v =>
    let st := { st with seen := st.seen ++ [s] }
    if s = "length_fn" then
      match v with
      | .LitStr fname =>
        .ok { st with packet_length := some (fname ++ "(&self.to_immutable())") }
      | .OtherLit => .error .lengthFnForm
    else if s = "length" then
      match v with
      | .LitStr expr =>
        let field_names :=
          (all.filterMap (fun f => f.ident)).filter (fun n => n ≠ field_name)
        let r := parse_length_expr (ptts expr) field_names
        .ok { st with packet_length := some (tts_to_string r.1),
                      diags := st.diags ++ r.2 }
      | .OtherLit => .error .lengthForm
    else .error (.unknownAttr s)

/-- The attribute loop of make_packet over one field's attributes. -/
def process_attrs (ptts : String → List TokenTree) (all : List StructField)
    (field_name : String) (idx : Nat) :
    List MetaItem → AttrState → Except Diag AttrState
  | [], st => .ok st
  | a :: rest, st =>
    match process_attr ptts all field_name idx st a with
    | .ok st2 => process_attrs ptts all field_name idx rest st2
    | .error e => .error e

/-- The body of make_packet's field loop (decorator.rs lines 90-233) for
    one field: name check, attribute loop, duplicate-directive check
    (lines 190-195), type classification, and the per-type validation
    (lines 205-222), producing the Field record pushed at lines 224-232
    together with the updated payload span and the non-aborting
    diagnostics. -/
def process_field (ptts : String → List TokenTree) (all : List StructField)
    (sf : StructField) (idx : Nat) (pspan : Option Nat) :
    Except Diag (Field × Option Nat × List Diag) :=
  match sf.ident with
  | none => .error .unnamedField
  | some field_name =>
    match process_attrs ptts all field_name idx sf.attrs
        ⟨false, none, [], [], pspan, []⟩ with
    | .error e => .error e
    | .ok st =>
      if (rust_dedup st.seen).length ≠ st.seen.length then .error .dupAttr
      else
        match make_type sf.ty_str with
        | .error e => .error (.invalidType e)
        | .ok ty =>
          match ty with
          | .Vector _ =>
            if !st.is_payload && st.packet_length.isNone then
              .error .vecNeedsLength
            else
              .ok (⟨field_name, ty, st.packet_length,
                    some ("_packet." ++ field_name ++ ".len()"),
                    st.is_payload, some st.construct_with⟩, st.pspan, st.diags)
          | .Misc _ =>
            if st.construct_with.isEmpty then .error .miscNeedsConstructWith
            else
              .ok (⟨field_name, ty, st.packet_length, none,
                    st.is_payload, some st.construct_with⟩, st.pspan, st.diags)
          | .Primitive _ _ _ =>
            .ok (⟨field_name, ty, st.packet_length, none,
                  st.is_payload, some st.construct_with⟩, st.pspan, st.diags)

/-- make_packet's loop over all fields, accumulating the Field records, the
    payload span, and the diagnostics; an error aborts with its diagnostic
    appended (the Rust code reports it and returns None). -/
def mpFields (ptts : String → List TokenTree) (all : List StructField) :
    List StructField → Nat → Option Nat → List Field → List Diag →
    List Diag × Option (Option Nat × List Field)
  | [], _, pspan, acc, diags => (diags, some (pspan, acc))
  | sf :: rest, idx, pspan, acc, diags =>
    match process_field ptts all sf idx pspan with
    | .error e => (diags ++ [e], none)
    | .ok (fld, pspan2, fdiags) =>
      mpFields ptts all rest (idx + 1) pspan2 (acc ++ [fld]) (diags ++ fdiags)

/-- decorator.rs lines 86-245, `make_packet`: the diagnostics reported to
    ecx, and the Packet (None where the Rust function returns None). -/
def make_packet (ptts : String → List TokenTree) (name : String)
    (sfs : List StructField) : List Diag × Option Packet :=
  match mpFields ptts sfs sfs 0 none [] [] with
  | (diags, none) => (diags, none)
  | (diags, some (pspan, fields)) =>
    if pspan.isNone then (diags ++ [.noPayload], none)
    else (diags, some ⟨name, fields⟩)

/-- decorator.rs lines 1074-1080, `current_offset`: the symbolic byte-offset
    expression `(bit_offset / 8) + fn1 + fn2 + ...` as a string. -/
def current_offset (bit_offset : Nat) (offset_fns : List String) : String :=
  offset_fns.foldl (fun a b => a ++ " + " ++ b) (toString (bit_offset / 8))

/-- decorator.rs lines 27-32, `struct PayloadBounds`. -/
structure PayloadBounds where
  lower : String
  upper : String
deriving DecidableEq, Repr

/-- One `construct_with` argument emitted by handle_misc_field: exactly the
    values pasted into the generated inner accessor `get_argi` and mutator
    `set_argi` (decorator.rs lines 436-445): the argument name `arg<i>`, the
    primitive type name, its width and endianness (which select the bit
    operations from util::operations / to_little_endian, outside the sources
    under verification), and the byte-offset expression `co` substituted
    into both the accessor and the mutator. -/
structure MiscArgEmission where
  arg_name : String
  ty_name : String
  size : Nat
  endianness : Endianness
  offset : String
deriving DecidableEq, Repr

/-- The mutable state of the argument loop in handle_misc_field
    (decorator.rs lines 424-454): emitted inner accessors/mutators, the
    bit offset, the current-offset string, the error flag, and the
    argument counter `i`. -/
structure MiscFoldState where
  ems : List MiscArgEmission
  bit_offset : Nat
  co : String
  error : Bool
  i : Nat
deriving DecidableEq, Repr

/-- One iteration of the argument loop in handle_misc_field (decorator.rs
    lines 429-454): a primitive argument emits an inner accessor/mutator at
    the current `co`, then advances `bit_offset` by its width and recomputes
    `co = current_offset(bit_offset, offset_fns)` (lines 446-448); any other
    argument reports "arguments to construct_with must be primitives" and
    sets the error flag (lines 450-451).  `i` increments either way
    (line 453). -/
def misc_step (offset_fns : List String) (st : MiscFoldState) (arg : Ty) :
    MiscFoldState :=
  match arg with
  | .Primitive ty_str size endianness =>
    { ems := st.ems ++ [⟨"arg" ++ toString st.i, ty_str, size, endianness, st.co⟩],
      bit_offset := st.bit_offset + size,
      co := current_offset (st.bit_offset + size) offset_fns,
      error := st.error,
      i := st.i + 1 }
  | _ => { st with error := true, i := st.i + 1 }

/-- Result of handle_misc_field: the emitted inner accessors/mutators, the
    final bit offset and current-offset string (written back through the
    &mut parameters), the error-flag contribution, and which constructor
    branch the outer accessor takes (decorator.rs lines 473-479):
    `new_ctor = true` is the `T::new(get_arg0(&self), ...)` branch taken
    when construct_with is Some, `false` the
    `T::new(&self.packet[current_offset..])` branch for None. -/
structure MiscResult where
  args : List MiscArgEmission
  bit_offset : Nat
  co : String
  error : Bool
  new_ctor : Bool
deriving DecidableEq, Repr

/-- decorator.rs lines 414-489, `handle_misc_field`.  The Rust loop iterates
    `field.construct_with.as_ref().unwrap()`; the unwrap panic on None is
    modelled by iterating the empty list (make_packet always stores Some, so
    the distinction is unreachable — see the C10 theorem). -/
def handle_misc_field (field : Field) (bit_offset : Nat)
    (offset_fns : List String) (co : String) : MiscResult :=
  let r := (field.construct_with.getD []).foldl (misc_step offset_fns)
    ⟨[], bit_offset, co, false, 0⟩
  ⟨r.ems, r.bit_offset, r.co, r.error, field.construct_with.isSome⟩

/-- What handle_vec_primitive / the Misc arm of handle_vector_field emit for
    the inner type of a vector field (decorator.rs lines 491-550 and
    596-647).  Slice bounds are pairs (start, end) of the expression strings
    substituted into `&self.packet[start..end]` in the generated source.

    * `U8 g c`: inner type printed as "u8".  `g` is the slice of the copying
      `get_<name>` accessor (lines 505-508), present only for non-payload
      fields; `c` is the `let len = ...; assert!(vals.len() <= len)` check of
      the setter (lines 521-527), present when a length expression exists.
    * `OtherPrim`: any other primitive — "unimplemented variable length
      field" (lines 546-549).
    * `Nested`: vector of vectors — "variable length fields may not contain
      vectors" (lines 600-603).
    * `MiscIter g s`: `g` is the iterator slice of `get_<name>`
      (lines 614-615), `s` the (initial offset, bound) pair of the setter
      loop `let mut current_offset = ..; let len = ..;` (lines 631-637). -/
inductive VecInner where
  | U8 (copy_get_slice : Option (String × String)) (set_len_check : Option String)
  | OtherPrim
  | Nested
  | MiscIter (get_slice : String × String) (set_bounds : String × String)
deriving DecidableEq, Repr

/-- Result of handle_vector_field (decorator.rs lines 552-648).
    `missing_length` is the error of lines 560-563 (non-payload vector with
    no length expression); `raw` holds the slice bounds of `get_<name>_raw`
    (lines 565-579) and `get_<name>_raw_mut` (lines 580-594), emitted only
    for non-payload fields.  The generated bodies are
    `let current_offset = <start>; let len = <end>;
     &self.packet[current_offset..len]`. -/
structure VecResult where
  missing_length : Bool
  raw : Option ((String × String) × (String × String))
  inner : VecInner
deriving DecidableEq, Repr

/-- decorator.rs lines 552-648, `handle_vector_field`.  The
    `packet_length.as_ref().unwrap()` calls on a field with no length
    expression (which panic after the lines 560-563 error is reported) are
    modelled by the empty string; make_packet never produces such a field. -/
def handle_vector_field (field : Field) (inner_ty : Ty) (co : String) :
    VecResult :=
  let missing := !field.is_payload && field.packet_length.isNone
  let pl := field.packet_length.getD ""
  let raw := if !field.is_payload then some ((co, pl), (co, pl)) else none
  let inner :=
    match inner_ty with
    | .Primitive ty_str _ _ =>
      if ty_str = "u8" then
        VecInner.U8 (if !field.is_payload then some (co, pl) else none)
          field.packet_length
      else VecInner.OtherPrim
    | .Vector _ => VecInner.Nested
    | .Misc _ => VecInner.MiscIter (co, pl) (co, pl)
  ⟨missing, raw, inner⟩

/-- The error-flag contribution of handle_vector_field: set by the
    missing-length error and by the OtherPrim / Nested arms. -/
def vec_error (r : VecResult) : Bool :=
  r.missing_length ||
    (match r.inner with
     | VecInner.OtherPrim => true
     | VecInner.Nested => true
     | _ => false)

/-- One emitted accessor/mutator pair of the driver, by field kind.
    `Prim name ty co size e` records the values pasted into
    generate_accessor_str / generate_mutator_str for a primitive field
    (decorator.rs lines 682-692). -/
inductive Emission where
  | Prim (name : String) (ty_name : String) (co : String) (size : Nat)
      (endianness : Endianness)
  | Vec (name : String) (r : VecResult)
  | Misc (name : String) (ty_name : String) (r : MiscResult)
deriving DecidableEq, Repr

/-- The mutable state of the field loop in generate_packet_impl
    (decorator.rs lines 653-659). -/
structure GenState where
  bit_offset : Nat
  offset_fns_packet : List String
  offset_fns_struct : List String
  error : Bool
  payload_bounds : Option PayloadBounds
  emissions : List Emission
deriving DecidableEq, Repr

def init_gen_state : GenState :=
  ⟨0, [], [], false, none, []⟩

/-- The payload step of the field loop (decorator.rs lines 663-680): a
    payload field records bounds lower = co and upper = `co + length` when a
    length expression exists; without one the upper bound stays empty and a
    non-final position is an error. -/
def payload_phase (total idx : Nat) (co : String) (st : GenState)
    (field : Field) : GenState :=
  if field.is_payload then
    match field.packet_length with
    | some pl => { st with payload_bounds := some ⟨co, co ++ " + " ++ pl⟩ }
    | none =>
      { st with payload_bounds := some ⟨co, ""⟩,
                error := st.error || (idx != total - 1) }
  else st

/-- The dispatch step of the field loop (decorator.rs lines 681-701):
    a primitive field emits its accessor/mutator at `co` and advances the
    bit offset by its width; a vector field is handed to
    handle_vector_field (which never touches the bit offset); a misc field
    is handed to handle_misc_field, which advances the bit offset per
    primitive argument. -/
def dispatch_phase (co : String) (st : GenState) (field : Field) : GenState :=
  match field.ty with
  | .Primitive ty_str size endianness =>
    { st with
      emissions := st.emissions ++ [.Prim field.name ty_str co size endianness],
      bit_offset := st.bit_offset + size }
  | .Vector inner =>
    let r := handle_vector_field field inner co
    { st with emissions := st.emissions ++ [.Vec field.name r],
              error := st.error || vec_error r }
  | .Misc ty_str =>
    let r := handle_misc_field field st.bit_offset st.offset_fns_packet co
    { st with emissions := st.emissions ++ [.Misc field.name ty_str r],
              bit_offset := r.bit_offset,
              error := st.error || r.error }

/-- The accumulator step of the field loop (decorator.rs lines 702-707):
    append the field's packet_length / struct_length expressions to the
    offset accumulators. -/
def lengths_phase (st : GenState) (field : Field) : GenState :=
  let st1 :=
    match field.packet_length with
    | some pl => { st with offset_fns_packet := st.offset_fns_packet ++ [pl] }
    | none => st
  match field.struct_length with
  | some sl => { st1 with offset_fns_struct := st1.offset_fns_struct ++ [sl] }
  | none => st1

/-- One iteration of the field loop of generate_packet_impl (decorator.rs
    lines 660-708): compute `co = current_offset(bit_offset,
    offset_fns_packet)` once, then the payload, dispatch and accumulator
    steps in order. -/
def gen_step (total idx : Nat) (st : GenState) (field : Field) : GenState :=
  let co := current_offset st.bit_offset st.offset_fns_packet
  lengths_phase (dispatch_phase co (payload_phase total idx co st field) field)
    field

/-- The field loop of generate_packet_impl, fields in declaration order. -/
def gen_fields (total : Nat) : Nat → GenState → List Field → GenState
  | _, st, [] => st
  | idx, st, f :: rest => gen_fields total (idx + 1) (gen_step total idx st f) rest

/-- decorator.rs lines 749-753: the emitted minimum_packet_size constant,
    the byte ceiling of the final bit offset. -/
def byte_size (bit_offset : Nat) : Nat :=
  if bit_offset % 8 = 0 then bit_offset / 8 else bit_offset / 8 + 1

/-- Result of generate_packet_impl (decorator.rs lines 650-800): the final
    loop state; the function result, None exactly when the error flag is
    set (line 710-712; the payload_bounds.unwrap() of line 799, a panic on
    a packet with no payload field, is modelled as None — make_packet only
    produces packets with a payload); the emitted minimum_packet_size
    constant (lines 749-753, 778-780); and the emitted packet_size struct
    helper expression (lines 739-747). -/
structure GenResult where
  state : GenState
  result : Option (PayloadBounds × String)
  min_packet_size : Nat
  packet_size_struct : String
deriving DecidableEq, Repr

/-- decorator.rs lines 650-800, `generate_packet_impl` (the same layout
    state is produced for the immutable and the mutable view). -/
def generate_packet_impl (p : Packet) : GenResult :=
  let st := gen_fields p.fields.length 0 init_gen_state p.fields
  ⟨st,
   if st.error then none
   else st.payload_bounds.map
     (fun pb => (pb, current_offset st.bit_offset st.offset_fns_packet)),
   byte_size st.bit_offset,
   current_offset st.bit_offset st.offset_fns_struct⟩

/-- The final bit offset of the driver on a field list: the value from
    which the emitted minimum_packet_size constant is computed. -/
def driveBits (fields : List Field) : Nat :=
  (gen_fields fields.length 0 init_gen_state fields).bit_offset

/-- Semantics of Rust slice indexing `&p[a..b]`: the elements from index a
    (inclusive) to b (exclusive); None models the panic when a > b or
    b > p.len(). -/
def rustSlice (p : List Nat) (a b : Nat) : Option (List Nat) :=
  if a ≤ b ∧ b ≤ p.length then some ((p.drop a).take (b - a)) else none

/-- Semantics of the body emitted for `get_<name>_raw` / `get_<name>_raw_mut`
    and for the copying Vec<u8> `get_<name>` (decorator.rs lines 570-573,
    585-588, 505-508): `let current_offset = co; let len = packet_length;
    &self.packet[current_offset..len]`, evaluated on a concrete buffer with
    the two expressions evaluated to co and len. -/
def get_raw_sem (packet : List Nat) (co len : Nat) : Option (List Nat) :=
  rustSlice packet co len

/-- Semantics of the emitted constructor `new` (decorator.rs lines 759-765):
    `if packet.len() >= minimum_packet_size() { Some(view) } else { None }`,
    identical for the immutable and the mutable view. -/
def generated_new (packet : List Nat) (min_size : Nat) : Option (List Nat) :=
  if packet.length ≥ min_size then some packet else none

/-- Width in bits contributed by one construct_with argument inside
    handle_misc_field: primitive arguments advance the bit offset by their
    width, non-primitive arguments only set the error flag. -/
def arg_bits : Ty → Nat
  | .Primitive _ size _ => size
  | _ => 0

/-- Fixed bit width of a field as the driver accumulates it, determined by
    the field's type and construct_with list alone: a primitive contributes
    its width, a vector contributes nothing, a misc field contributes the
    widths of its primitive construct_with arguments. -/
def pair_bits : Ty × Option (List Ty) → Nat
  | (.Primitive _ size _, _) => size
  | (.Vector _, _) => 0
  | (.Misc _, cw) => ((cw.getD []).map arg_bits).sum

def field_bits (f : Field) : Nat :=
  pair_bits (f.ty, f.construct_with)

/-- Spec-side description of the Misc argument emission (spec §4.7): the
    argument at position i is emitted as `arg<i>` with accessor and mutator
    offset recomputed from the bit offset advanced by the widths of all
    earlier arguments. -/
def misc_args_expected (offset_fns : List String) :
    Nat → Nat → List (String × Nat × Endianness) → List MiscArgEmission
  | _, _, [] => []
  | b, i, p :: rest =>
    ⟨"arg" ++ toString i, p.1, p.2.1, p.2.2, current_offset b offset_fns⟩ ::
      misc_args_expected offset_fns (b + p.2.1) (i + 1) rest

theorem takeWhile_append_all {p : Char → Bool} :
    ∀ (l r : List Char), (∀ a ∈ l, p a = true) →
      (l ++ r).takeWhile p = l ++ r.takeWhile p := by
  intro l r h
  induction l with
  | nil => simp
  | cons a t ih =>
    simp only [List.cons_append, List.takeWhile_cons]
    rw [h a (by simp)]
    simp only [if_true]
    rw [ih (fun x hx => h x (by simp [hx]))]

theorem dropWhile_append_all {p : Char → Bool} :
    ∀ (l r : List Char), (∀ a ∈ l, p a = true) →
      (l ++ r).dropWhile p = r.dropWhile p := by
  intro l r h
  induction l with
  | nil => simp
  | cons a t ih =>
    simp only [List.cons_append, List.dropWhile_cons]
    rw [h a (by simp)]
    simp only [if_true]
    exact ih (fun x hx => h x (by simp [hx]))

theorem dedupTail_length_le :
    ∀ (l : List String) (prev : String), (dedupTail prev l).length ≤ l.length := by
  intro l
  induction l with
  | nil => intro prev; simp [dedupTail]
  | cons b rest ih =>
    intro prev
    simp only [dedupTail]
    split
    · exact Nat.le_trans (ih prev) (by simp)
    · simpa using ih b

theorem dedupTail_length_iff :
    ∀ (l : List String) (prev : String),
      ((dedupTail prev l).length = l.length) ↔
        (∀ i, i + 1 < (prev :: l).length →
          (prev :: l).get? i ≠ (prev :: l).get? (i + 1)) := by
  intro l
  induction l with
  | nil =>
    intro prev
    constructor
    · intro _ i hi
      simp at hi
    · intro _
      simp [dedupTail]
  | cons b rest ih =>
    intro prev
    by_cases hpb : prev = b
    · subst hpb
      simp only [dedupTail, if_pos rfl]
      constructor
      · intro h
        have := dedupTail_length_le rest prev
        simp at h
        omega
      · intro h
        exact absurd rfl (h 0 (by simp))
    · simp only [dedupTail, if_neg hpb, List.length_cons]
      constructor
      · intro h i hi
        have h' := (ih b).mp (by omega)
        match i with
        | 0 =>
          simp only [List.get?_cons_zero, List.get?_cons_succ]
          intro hc
          exact hpb (Option.some.inj hc)
        | Nat.succ j =>
          have := h' j (by simp at hi ⊢; omega)
          simpa using this
      · intro h
        have hlen : (dedupTail b rest).length = rest.length := by
          apply (ih b).mpr
          intro j hj
          have := h (j + 1) (by simp at hj ⊢; omega)
          simpa using this
        omega

theorem rust_dedup_length_iff :
    ∀ l : List String,
      ((rust_dedup l).length = l.length) ↔
        ∀ i, i + 1 < l.length → l.get? i ≠ l.get? (i + 1) := by
  intro l
  cases l with
  | nil => simp [rust_dedup]
  | cons a rest =>
    simp only [rust_dedup, List.length_cons]
    constructor
    · intro h
      exact (dedupTail_length_iff rest a).mp (by omega)
    · intro h
      have := (dedupTail_length_iff rest a).mpr h
      omega

theorem misc_step_error_true (fns : List String) (st : MiscFoldState) (a : Ty)
    (h : st.error = true) : (misc_step fns st a).error = true := by
  cases a <;> simp [misc_step, h]

theorem misc_fold_error_true (fns : List String) :
    ∀ (args : List Ty) (st : MiscFoldState), st.error = true →
      (args.foldl (misc_step fns) st).error = true := by
  intro args
  induction args with
  | nil => intro st h; simpa
  | cons a rest ih =>
    intro st h
    exact ih _ (misc_step_error_true fns st a h)

theorem misc_fold_error_of_mem (fns : List String) :
    ∀ (args : List Ty) (st : MiscFoldState) (a : Ty),
      a ∈ args → a.isPrimitive = false →
      (args.foldl (misc_step fns) st).error = true := by
  intro args
  induction args with
  | nil => intro st a ha _; simp at ha
  | cons hd rest ih =>
    intro st a ha hp
    rcases List.mem_cons.mp ha with h | h
    · subst h
      rw [List.foldl_cons]
      apply misc_fold_error_true
      cases a <;> simp_all [Ty.isPrimitive, misc_step]
    · exact ih _ a h hp

theorem handle_misc_error_of_bad_arg (f : Field) (b : Nat) (fns : List String)
    (co : String) (a : Ty) (ha : a ∈ f.construct_with.getD [])
    (hp : a.isPrimitive = false) :
    (handle_misc_field f b fns co).error = true := by
  simp only [handle_misc_field]
  exact misc_fold_error_of_mem fns _ _ a ha hp

theorem misc_fold_bits (fns : List String) :
    ∀ (args : List Ty) (st : MiscFoldState),
      (args.foldl (misc_step fns) st).bit_offset
        = st.bit_offset + (args.map arg_bits).sum := by
  intro args
  induction args with
  | nil => intro st; simp
  | cons a rest ih =>
    intro st
    rw [List.map_cons, List.foldl_cons, ih]
    cases a <;> simp [misc_step, arg_bits] <;> omega

theorem payload_phase_bits (total idx : Nat) (co : String) (st : GenState)
    (f : Field) : (payload_phase total idx co st f).bit_offset = st.bit_offset := by
  unfold payload_phase
  split
  · split <;> rfl
  · rfl

theorem payload_phase_fns (total idx : Nat) (co : String) (st : GenState)
    (f : Field) :
    (payload_phase total idx co st f).offset_fns_packet = st.offset_fns_packet := by
  unfold payload_phase
  split
  · split <;> rfl
  · rfl

theorem payload_phase_error_mono (total idx : Nat) (co : String) (st : GenState)
    (f : Field) (h : st.error = true) :
    (payload_phase total idx co st f).error = true := by
  unfold payload_phase
  split
  · split
    · exact h
    · simp [h]
  · exact h

theorem lengths_phase_bits (st : GenState) (f : Field) :
    (lengths_phase st f).bit_offset = st.bit_offset := by
  unfold lengths_phase
  cases f.packet_length <;> cases f.struct_length <;> rfl

theorem lengths_phase_error (st : GenState) (f : Field) :
    (lengths_phase st f).error = st.error := by
  unfold lengths_phase
  cases f.packet_length <;> cases f.struct_length <;> rfl

theorem dispatch_phase_bits (co : String) (st : GenState) (f : Field) :
    (dispatch_phase co st f).bit_offset = st.bit_offset + field_bits f := by
  cases hf : f.ty with
  | Primitive n w e => simp [dispatch_phase, hf, field_bits, pair_bits]
  | Vector i => simp [dispatch_phase, hf, field_bits, pair_bits]
  | Misc s =>
    simp [dispatch_phase, hf, field_bits, pair_bits, handle_misc_field,
      misc_fold_bits]

theorem dispatch_phase_error_mono (co : String) (st : GenState) (f : Field)
    (h : st.error = true) : (dispatch_phase co st f).error = true := by
  cases hf : f.ty <;> simp [dispatch_phase, hf, h]

theorem gen_step_bits (total idx : Nat) (st : GenState) (f : Field) :
    (gen_step total idx st f).bit_offset = st.bit_offset + field_bits f := by
  unfold gen_step
  rw [lengths_phase_bits, dispatch_phase_bits, payload_phase_bits]

theorem gen_step_error_mono (total idx : Nat) (st : GenState) (f : Field)
    (h : st.error = true) : (gen_step total idx st f).error = true := by
  unfold gen_step
  rw [lengths_phase_error]
  exact dispatch_phase_error_mono _ _ _ (payload_phase_error_mono _ _ _ _ _ h)

theorem gen_step_error_of_bad_misc (total idx : Nat) (st : GenState) (f : Field)
    (s : String) (a : Ty) (hty : f.ty = Ty.Misc s)
    (ha : a ∈ f.construct_with.getD []) (hp : a.isPrimitive = false) :
    (gen_step total idx st f).error = true := by
  unfold gen_step
  rw [lengths_phase_error]
  simp [dispatch_phase, hty, handle_misc_error_of_bad_arg _ _ _ _ a ha hp]

theorem gen_fields_error_mono :
    ∀ (fs : List Field) (total idx : Nat) (st : GenState), st.error = true →
      (gen_fields total idx st fs).error = true := by
  intro fs
  induction fs with
  | nil => intro total idx st h; simpa [gen_fields]
  | cons f rest ih =>
    intro total idx st h
    exact ih total (idx + 1) _ (gen_step_error_mono total idx st f h)

theorem gen_fields_error_of_mem :
    ∀ (fs : List Field) (total idx : Nat) (st : GenState) (f : Field)
      (s : String) (a : Ty),
      f ∈ fs → f.ty = Ty.Misc s → a ∈ f.construct_with.getD [] →
      a.isPrimitive = false → (gen_fields total idx st fs).error = true := by
  intro fs
  induction fs with
  | nil => intro total idx st f s a hf _ _ _; simp at hf
  | cons hd rest ih =>
    intro total idx st f s a hf hty ha hp
    rcases List.mem_cons.mp hf with h | h
    · subst h
      exact gen_fields_error_mono rest total (idx + 1) _
        (gen_step_error_of_bad_misc total idx st f s a hty ha hp)
    · exact ih total (idx + 1) _ f s a h hty ha hp

theorem gen_fields_bits :
    ∀ (fs : List Field) (total idx : Nat) (st : GenState),
      (gen_fields total idx st fs).bit_offset
        = st.bit_offset + (fs.map field_bits).sum := by
  intro fs
  induction fs with
  | nil => intro total idx st; simp [gen_fields]
  | cons f rest ih =>
    intro total idx st
    rw [gen_fields, ih, gen_step_bits, List.map_cons, List.sum_cons]
    omega

theorem driveBits_eq (fs : List Field) :
    driveBits fs = (fs.map field_bits).sum := by
  simp [driveBits, gen_fields_bits, init_gen_state]

theorem field_bits_vector (f : Field) (hv : f.ty.isVector = true) :
    field_bits f = 0 := by
  cases hty : f.ty <;> simp [Ty.isVector, hty] at hv ⊢ <;>
    simp [field_bits, pair_bits, hty]

theorem sum_filter_bits :
    ∀ fs : List Field,
      ((fs.filter (fun f => !f.ty.isVector)).map field_bits).sum
        = (fs.map field_bits).sum := by
  intro fs
  induction fs with
  | nil => simp
  | cons f rest ih =>
    by_cases hv : f.ty.isVector = true
    · simp [List.filter_cons, hv, ih, field_bits_vector f hv]
    · simp only [Bool.not_eq_true] at hv
      simp [List.filter_cons, hv, ih]

theorem byte_size_eq (n : Nat) : byte_size n = (n + 7) / 8 := by
  unfold byte_size
  split <;> omega

theorem misc_fold_spec (fns : List String) :
    ∀ (ps : List (String × Nat × Endianness)) (ems : List MiscArgEmission)
      (b : Nat) (err : Bool) (i : Nat),
      (ps.map (fun p => Ty.Primitive p.1 p.2.1 p.2.2)).foldl (misc_step fns)
          ⟨ems, b, current_offset b fns, err, i⟩ =
        ⟨ems ++ misc_args_expected fns b i ps,
         b + (ps.map (fun p => p.2.1)).sum,
         current_offset (b + (ps.map (fun p => p.2.1)).sum) fns,
         err, i + ps.length⟩ := by
  intro ps
  induction ps with
  | nil =>
    intro ems b err i
    simp [misc_args_expected]
  | cons p rest ih =>
    intro ems b err i
    simp only [List.map_cons, List.foldl_cons, misc_step]
    rw [ih]
    have h1 : b + p.2.1 + ((rest.map fun p => p.2.1).sum)
        = b + (((p :: rest).map fun p => p.2.1).sum) := by
      simp only [List.map_cons, List.sum_cons]
      omega
    have h2 : i + 1 + rest.length = i + (p :: rest).length := by
      simp only [List.length_cons]
      omega
    have h3 : (ems ++ [(⟨"arg" ++ toString i, p.1, p.2.1, p.2.2,
          current_offset b fns⟩ : MiscArgEmission)])
            ++ misc_args_expected fns (b + p.2.1) (i + 1) rest
        = ems ++ misc_args_expected fns b i (p :: rest) := by
      simp [misc_args_expected]
    simp only [h1, h2, h3, List.map_cons]

theorem misc_args_expected_get (fns : List String) :
    ∀ (ps : List (String × Nat × Endianness)) (b i j : Nat), j < ps.length →
      ((misc_args_expected fns b i ps)[j]?.map MiscArgEmission.offset)
        = some (current_offset (b + ((ps.map (fun p => p.2.1)).take j).sum)
            fns) := by
  intro ps
  induction ps with
  | nil => intro b i j hj; simp at hj
  | cons p rest ih =>
    intro b i j hj
    match j with
    | 0 => simp [misc_args_expected]
    | Nat.succ k =>
      simp only [misc_args_expected, List.getElem?_cons_succ, List.map_cons,
        List.take_succ_cons, List.sum_cons]
      rw [ih (b + p.2.1) (i + 1) k (by simp at hj; omega), Nat.add_assoc]

theorem process_field_cw_some (ptts : String → List TokenTree)
    (all : List StructField) (sf : StructField) (idx : Nat) (pspan : Option Nat)
    (fld : Field) (x : Option Nat) (y : List Diag)
    (h : process_field ptts all sf idx pspan = .ok (fld, x, y)) :
    fld.construct_with.isSome = true := by
  unfold process_field at h
  repeat (any_goals split at h)
  all_goals simp_all
  all_goals obtain ⟨h1, -, -⟩ := h
  all_goals rw [← h1]
  all_goals rfl

theorem mpFields_cw (ptts : String → List TokenTree) (all : List StructField) :
    ∀ (rest : List StructField) (idx : Nat) (ps : Option Nat)
      (acc : List Field) (ds d : List Diag) (sp : Option Nat)
      (out : List Field),
      mpFields ptts all rest idx ps acc ds = (d, some (sp, out)) →
      (∀ f ∈ acc, f.construct_with.isSome = true) →
      ∀ f ∈ out, f.construct_with.isSome = true := by
  intro rest
  induction rest with
  | nil =>
    intro idx ps acc ds d sp out h hacc f hf
    simp only [mpFields, Prod.mk.injEq, Option.some.injEq] at h
    obtain ⟨-, -, h2⟩ := h
    exact hacc f (h2 ▸ hf)
  | cons sf rest ih =>
    intro idx ps acc ds d sp out h hacc f hf
    simp only [mpFields] at h
    cases hpf : process_field ptts all sf idx ps with
    | error e =>
      rw [hpf] at h
      simp at h
    | ok trip =>
      obtain ⟨fld, ps2, fd⟩ := trip
      rw [hpf] at h
      refine ih (idx + 1) ps2 (acc ++ [fld]) (ds ++ fd) d sp out h ?_ f hf
      intro g hg
      rcases List.mem_append.mp hg with hg | hg
      · exact hacc g hg
      · rw [List.mem_singleton.mp hg]
        exact process_field_cw_some ptts all sf idx ps fld ps2 fd hpf

/-- The packet used to exhibit the vector-slice bug: one u8 fixed field,
    a non-payload Vec<u8> field with resolved length expression "1", and a
    trailing payload, as produced by make_packet for such a struct. -/
def c1Fields : List Field :=
  [⟨"x", .Primitive "u8" 8 .Big, none, none, false, some []⟩,
   ⟨"data", .Vector (.Primitive "u8" 8 .Big), some "1",
    some "_packet.data.len()", false, some []⟩,
   ⟨"payload", .Vector (.Primitive "u8" 8 .Big), none,
    some "_packet.payload.len()", true, some []⟩]

/-- C1: the claim says the generated get_data_raw, get_data_raw_mut and
    copying get_data accessors read the subslice packet[CO .. CO + L]; the
    emitter instead substitutes the current offset and the bare length
    expression as the two slice endpoints, producing
    `&self.packet[current_offset..len]` = packet[CO .. L].  Running the
    driver on a packet where the vector field sits at CO = 1 with L = 1
    shows all three accessors slice from "1" to "1"; evaluating that body
    on the buffer [5, 6, 7] yields the empty slice, while the claimed
    subslice packet[1 .. 1 + 1] is [6]. -/
theorem c1_vector_raw_slice_bug :
    (gen_fields 3 0 init_gen_state c1Fields).emissions[1]? =
      some (.Vec "data"
        ⟨false, some (("1", "1"), ("1", "1")),
         .U8 (some ("1", "1")) (some "1")⟩) ∧
    get_raw_sem [5, 6, 7] 1 1 = some [] ∧
    rustSlice [5, 6, 7] 1 (1 + 1) = some [6] ∧
    get_raw_sem [5, 6, 7] 1 1 ≠ rustSlice [5, 6, 7] 1 (1 + 1) := by
  refine ⟨by decide, by decide, by decide, by decide⟩

/-- C2: the claim (and the doc comment on parse_ty, decorator.rs
    lines 937-939) says widths of at most 8 bits force Big endianness even
    with an explicit le suffix; parse_ty has no width test and returns
    Little for "u4le". -/
theorem c2_parse_ty_u4le_little :
    parse_ty "u4le" = some (4, Endianness.Little) := by
  decide

/-- C3 counterexample: a lowercase bare identifier that is not a sibling
    field name is claimed to be rewritten to `IDENT as usize` with no error;
    the rewriter instead reports the field-name error and appends nothing. -/
theorem c3_lowercase_nonfield_counterexample :
    parse_length_expr [TokenTree.TtToken (Tok.Ident "foo" IdentStyle.Plain)] []
      = ([], [Diag.lengthExprFieldName]) := by
  simp [parse_length_expr, plengthList, plengthTree,
    show has_lowercase "foo" = true from by decide,
    show ([] : List String).contains "foo" = false from by decide]

/-- C3 (amended): a lowercase-containing bare identifier that is not a
    sibling field name is rejected with the field-name error and contributes
    no output tokens; it is the identifiers with no lowercase character that
    are rewritten to `IDENT as usize`. -/
theorem c3_lowercase_nonfield_rejected :
    (∀ (tts : List TokenTree) (fns : List String) (name : String),
      TokenTree.TtToken (Tok.Ident name IdentStyle.Plain) ∈ tts →
      has_lowercase name = true →
      fns.contains name = false →
      Diag.lengthExprFieldName ∈ (parse_length_expr tts fns).2) ∧
    (∀ (fns : List String) (name : String),
      has_lowercase name = false →
      plengthTree fns (TokenTree.TtToken (Tok.Ident name IdentStyle.Plain)) =
        ([OutTree.Raw (name ++ " as usize")], [])) := by
  constructor
  · intro tts fns name
    induction tts with
    | nil => intro hmem _ _; simp at hmem
    | cons tt rest ih =>
      intro hmem hlow hcon
      simp only [parse_length_expr, plengthList]
      rcases List.mem_cons.mp hmem with h | h
      · subst h
        have hmem2 : ¬ name ∈ fns := by simpa using hcon
        simp [plengthTree, hlow, hmem2]
      · exact List.mem_append.mpr (Or.inr (ih h hlow hcon))
  · intro fns name h
    simp [plengthTree, h]

/-- C3 witness: the amended theorem applied to the one-token stream
    ["foo"] with no sibling fields. -/
theorem c3_witness :
    Diag.lengthExprFieldName ∈
      (parse_length_expr
        [TokenTree.TtToken (Tok.Ident "foo" IdentStyle.Plain)] []).2 :=
  c3_lowercase_nonfield_rejected.1
    [TokenTree.TtToken (Tok.Ident "foo" IdentStyle.Plain)] [] "foo"
    (by simp) (by decide) (by decide)

/-- C4: for both generated view types, new(buf) is None exactly when
    buf.len() is below minimum_packet_size(), and the emitted
    minimum_packet_size() constant is the byte ceiling of the driver's
    final bit offset (the sum of the packet's fixed bit widths). -/
theorem c4_new_none_iff_min_size :
    ∀ (p : Packet) (buf : List Nat),
      (generated_new buf (generate_packet_impl p).min_packet_size = none ↔
        buf.length < (generate_packet_impl p).min_packet_size) ∧
      (generate_packet_impl p).min_packet_size
        = (driveBits p.fields + 7) / 8 := by
  intro p buf
  constructor
  · unfold generated_new
    by_cases hge : buf.length ≥ (generate_packet_impl p).min_packet_size
    · rw [if_pos hge]
      exact iff_of_false (by simp) (by omega)
    · rw [if_neg hge]
      exact iff_of_true rfl (by omega)
  · show byte_size (driveBits p.fields) = (driveBits p.fields + 7) / 8
    exact byte_size_eq _

/-- C5 counterexample: a field carrying the same directive twice in
    non-adjacent positions (construct_with, payload, construct_with) is
    claimed to be rejected; make_packet raises no duplicate error and
    produces the Packet. -/
theorem c5_nonadjacent_dup_packet :
    make_packet (fun _ => []) "Example"
      [⟨some "body",
        [MetaItem.MetaList "construct_with" [MetaItem.Word "u8"],
         MetaItem.Word "payload",
         MetaItem.MetaList "construct_with" [MetaItem.Word "u8"]],
        "Vec<u8>"⟩]
      = ([], some ⟨"Example",
          [⟨"body", .Vector (.Primitive "u8" 8 .Big), none,
            some "_packet.body.len()", true,
            some [.Primitive "u8" 8 .Big, .Primitive "u8" 8 .Big]⟩]⟩) := by
  decide

/-- C5 (amended): the dedup-based duplicate check fires exactly when two
    equal directive names occupy adjacent positions in the seen list (so a
    field with the same directive twice in adjacent positions aborts
    make_packet with the duplicate error), while duplicates separated by a
    different directive escape detection. -/
theorem c5_adjacent_dup_only :
    (∀ seen : List String,
      ((rust_dedup seen).length ≠ seen.length ↔
        ∃ i, i + 1 < seen.length ∧ seen.get? i = seen.get? (i + 1))) ∧
    make_packet (fun _ => []) "Example"
      [⟨some "body",
        [MetaItem.MetaList "construct_with" [MetaItem.Word "u8"],
         MetaItem.MetaList "construct_with" [MetaItem.Word "u8"],
         MetaItem.Word "payload"], "Vec<u8>"⟩]
      = ([Diag.dupAttr], none) := by
  constructor
  · intro seen
    rw [Ne, rust_dedup_length_iff]
    push_neg
    rfl
  · decide

/-- C6 counterexample: widths outside 1..=64 are claimed to be rejected by
    the primitive type parser; parse_ty and make_type accept u0 and u65. -/
theorem c6_u65_accepted :
    make_type "u65" = .ok (Ty.Primitive "u65" 65 Endianness.Big) ∧
    make_type "u0" = .ok (Ty.Primitive "u0" 0 Endianness.Big) ∧
    parse_ty "u65" = some (65, Endianness.Big) := by
  refine ⟨rfl, rfl, by decide⟩

/-- C6 (amended): the primitive type parser accepts exactly the names
    matching u<digits>[be|le]? whose digit string parses as a usize; it
    imposes no 1..=64 width restriction, so u0 and u65 are classified
    Primitive. -/
theorem c6_parse_ty_no_width_bound :
    ∀ ds : List Char, ds ≠ [] → (∀ c ∈ ds, c.isDigit = true) →
      digitsVal ds < 2 ^ 64 →
      parse_ty (String.mk ('u' :: ds)) = some (digitsVal ds, Endianness.Big) ∧
      parse_ty (String.mk ('u' :: (ds ++ ['l', 'e'])))
        = some (digitsVal ds, Endianness.Little) := by
  intro ds hne hdig hlt
  have hTake : ds.takeWhile Char.isDigit = ds := by
    have := takeWhile_append_all (p := Char.isDigit) ds [] hdig
    simpa using this
  have hDrop : ds.dropWhile Char.isDigit = [] := by
    have := dropWhile_append_all (p := Char.isDigit) ds [] hdig
    simpa using this
  have hTake2 : (ds ++ ['l', 'e']).takeWhile Char.isDigit = ds := by
    rw [takeWhile_append_all ds ['l', 'e'] hdig]
    simp [List.takeWhile_cons]
  have hDrop2 : (ds ++ ['l', 'e']).dropWhile Char.isDigit = ['l', 'e'] := by
    rw [dropWhile_append_all ds ['l', 'e'] hdig]
    simp [List.dropWhile_cons]
  have hEmpty : ds.isEmpty = false := by
    cases ds with
    | nil => exact absurd rfl hne
    | cons a t => rfl
  constructor
  · show parse_ty_chars ('u' :: ds) = _
    simp only [parse_ty_chars, hTake, hDrop, hEmpty, Bool.false_eq_true,
      if_false, suffixEndianness, parseUsizeDigits, if_pos (by omega :
        digitsVal ds ≤ 2 ^ 64 - 1)]
  · show parse_ty_chars ('u' :: (ds ++ ['l', 'e'])) = _
    simp only [parse_ty_chars, hTake2, hDrop2, hEmpty, Bool.false_eq_true,
      if_false, suffixEndianness, parseUsizeDigits, if_pos (by omega :
        digitsVal ds ≤ 2 ^ 64 - 1)]

/-- C6 witness: the amended theorem applied to the digit string "65". -/
theorem c6_witness :
    parse_ty (String.mk ['u', '6', '5'])
        = some (digitsVal ['6', '5'], Endianness.Big) ∧
    parse_ty (String.mk ('u' :: (['6', '5'] ++ ['l', 'e'])))
        = some (digitsVal ['6', '5'], Endianness.Little) :=
  c6_parse_ty_no_width_bound ['6', '5'] (by decide) (by decide) (by decide)

/-- C7 counterexample: a field whose construct_with argument does not
    resolve to a Primitive is claimed to be rejected by the directive
    extractor; make_packet classifies the bare word Bar as Misc and
    produces the Packet with it stored unvalidated. -/
theorem c7_nonprimitive_cw_accepted :
    make_packet (fun _ => []) "Foo"
      [⟨some "flags", [MetaItem.MetaList "construct_with" [MetaItem.Word "Bar"]],
        "MyFlags"⟩,
       ⟨some "payload", [MetaItem.Word "payload"], "Vec<u8>"⟩]
      = ([], some ⟨"Foo",
          [⟨"flags", .Misc "MyFlags", none, none, false, some [.Misc "Bar"]⟩,
           ⟨"payload", .Vector (.Primitive "u8" 8 .Big), none,
            some "_packet.payload.len()", true, some []⟩]⟩) := by
  decide

/-- C7 (amended): non-primitive construct_with arguments pass directive
    extraction; the rejection happens during code generation, where
    handle_misc_field reports that arguments to construct_with must be
    primitives and sets the error flag, so generate_packet_impl emits no
    impl for the packet. -/
theorem c7_nonprimitive_cw_rejected_in_codegen :
    ∀ (p : Packet) (f : Field) (s : String) (a : Ty),
      f ∈ p.fields → f.ty = Ty.Misc s → a ∈ f.construct_with.getD [] →
      a.isPrimitive = false →
      (generate_packet_impl p).result = none := by
  intro p f s a hf hty ha hp
  have herr := gen_fields_error_of_mem p.fields p.fields.length 0
    init_gen_state f s a hf hty ha hp
  simp [generate_packet_impl, herr]

/-- The packet the C7 counterexample produces, fed back to the driver. -/
def c7Packet : Packet :=
  ⟨"Foo",
   [⟨"flags", .Misc "MyFlags", none, none, false, some [.Misc "Bar"]⟩,
    ⟨"payload", .Vector (.Primitive "u8" 8 .Big), none,
     some "_packet.payload.len()", true, some []⟩]⟩

/-- C7 witness: the amended theorem applied to the concrete packet whose
    Misc field carries the non-primitive construct_with argument Bar. -/
theorem c7_witness : (generate_packet_impl c7Packet).result = none :=
  c7_nonprimitive_cw_rejected_in_codegen c7Packet
    ⟨"flags", .Misc "MyFlags", none, none, false, some [.Misc "Bar"]⟩
    "MyFlags" (Ty.Misc "Bar") (by simp [c7Packet]) rfl (by simp) rfl

/-- C8: emitting a Misc field with all-primitive construct_with arguments
    of widths w1..wn advances the bit offset by each width in turn, and the
    argument at position j is emitted with its accessor/mutator offset
    recomputed as current_offset of the bit offset advanced by the widths
    of all earlier arguments. -/
theorem c8_misc_per_arg_offsets :
    ∀ (ps : List (String × Nat × Endianness)) (f : Field) (b : Nat)
      (fns : List String),
      f.construct_with = some (ps.map (fun p => Ty.Primitive p.1 p.2.1 p.2.2)) →
      (handle_misc_field f b fns (current_offset b fns)).bit_offset
          = b + (ps.map (fun p => p.2.1)).sum ∧
      (handle_misc_field f b fns (current_offset b fns)).args
          = misc_args_expected fns b 0 ps ∧
      ∀ j, j < ps.length →
        ((handle_misc_field f b fns (current_offset b fns)).args[j]?.map
            MiscArgEmission.offset)
          = some (current_offset
              (b + ((ps.map (fun p => p.2.1)).take j).sum) fns) := by
  intro ps f b fns h
  have hfold := misc_fold_spec fns ps [] b false 0
  simp only [handle_misc_field, h, Option.getD_some]
  rw [hfold]
  refine ⟨rfl, by simp, ?_⟩
  intro j hj
  simp only [List.nil_append]
  exact misc_args_expected_get fns ps b 0 j hj

/-- The Misc field used as the C8 witness: construct_with(u8, u16be). -/
def cf8 : Field :=
  ⟨"flags", .Misc "F", none, none, false,
   some [.Primitive "u8" 8 .Big, .Primitive "u16be" 16 .Big]⟩

/-- C8 witness: the theorem applied at bit offset 0 with no variable-length
    accumulators to the field construct_with(u8, u16be). -/
theorem c8_witness :
    (handle_misc_field cf8 0 [] (current_offset 0 [])).bit_offset
      = 0 + ([("u8", 8, Endianness.Big), ("u16be", 16, Endianness.Big)].map
          (fun p => p.2.1)).sum :=
  (c8_misc_per_arg_offsets
    [("u8", 8, Endianness.Big), ("u16be", 16, Endianness.Big)]
    cf8 0 [] rfl).1

/-- C9: a vector field never advances the driver's bit offset; the final
    bit offset (hence minimum_packet_size) is a function of the fields'
    types and construct_with lists alone, so it is independent of every
    vector field's length expression, and dropping all vector fields leaves
    it unchanged. -/
theorem c9_vector_fields_no_bits :
    (∀ (total idx : Nat) (st : GenState) (f : Field),
      f.ty.isVector = true → (gen_step total idx st f).bit_offset = st.bit_offset) ∧
    (∀ fs fs' : List Field,
      fs.map (fun f => (f.ty, f.construct_with))
        = fs'.map (fun f => (f.ty, f.construct_with)) →
      driveBits fs = driveBits fs') ∧
    (∀ fs : List Field,
      driveBits (fs.filter (fun f => !f.ty.isVector)) = driveBits fs) := by
  refine ⟨?_, ?_, ?_⟩
  · intro total idx st f hv
    rw [gen_step_bits, field_bits_vector f hv]
    omega
  · intro fs fs' h
    rw [driveBits_eq, driveBits_eq]
    have h1 : fs.map field_bits
        = (fs.map (fun f => (f.ty, f.construct_with))).map pair_bits := by
      rw [List.map_map]
      rfl
    have h2 : fs'.map field_bits
        = (fs'.map (fun f => (f.ty, f.construct_with))).map pair_bits := by
      rw [List.map_map]
      rfl
    rw [h1, h2, h]
  · intro fs
    rw [driveBits_eq, driveBits_eq, sum_filter_bits]

/-- C9 witness: the first conjunct applied to a concrete vector field. -/
theorem c9_witness :
    (gen_step 1 0 init_gen_state
      ⟨"data", Ty.Vector (Ty.Primitive "u8" 8 Endianness.Big), some "1",
       some "_packet.data.len()", false, some []⟩).bit_offset
      = init_gen_state.bit_offset :=
  c9_vector_fields_no_bits.1 1 0 init_gen_state
    ⟨"data", Ty.Vector (Ty.Primitive "u8" 8 Endianness.Big), some "1",
     some "_packet.data.len()", false, some []⟩ rfl

/-- C10: every Field record produced by make_packet has construct_with set
    to Some list (never None), so the alternate construct_with-is-None
    constructor branch of the Misc accessor is never taken for such a
    field. -/
theorem c10_construct_with_always_some :
    ∀ (ptts : String → List TokenTree) (nm : String) (sfs : List StructField)
      (ds : List Diag) (p : Packet),
      make_packet ptts nm sfs = (ds, some p) →
      ∀ f ∈ p.fields,
        f.construct_with.isSome = true ∧
        ∀ (b : Nat) (fns : List String) (co : String),
          (handle_misc_field f b fns co).new_ctor = true := by
  intro ptts nm sfs ds p h f hf
  unfold make_packet at h
  split at h
  next diags hnone => simp at h
  next diags pspan fields heq =>
    split at h
    · simp at h
    · obtain ⟨-, hp⟩ := Prod.mk.injEq .. ▸ h
      obtain ⟨rfl⟩ : p = ⟨nm, fields⟩ := by
        cases hp' : p
        simp_all
      have hcw := mpFields_cw ptts sfs sfs 0 none [] [] diags pspan fields heq
        (by intro g hg; simp at hg) f (by simpa using hf)
      refine ⟨hcw, ?_⟩
      intro b fns co
      show f.construct_with.isSome = true
      exact hcw

/-- The one-field payload struct used as the C10 witness. -/
def c10Struct : List StructField :=
  [⟨some "payload", [MetaItem.Word "payload"], "Vec<u8>"⟩]

/-- C10 witness: make_packet on a concrete struct, with the theorem applied
    to its single field. -/
theorem c10_witness :
    (Field.mk "payload" (.Vector (.Primitive "u8" 8 .Big)) none
      (some "_packet.payload.len()") true (some [])).construct_with.isSome
      = true :=
  (c10_construct_with_always_some (fun _ => []) "P" c10Struct []
    ⟨"P", [⟨"payload", .Vector (.Primitive "u8" 8 .Big), none,
      some "_packet.payload.len()", true, some []⟩]⟩
    (by decide)
    ⟨"payload", .Vector (.Primitive "u8" 8 .Big), none,
      some "_packet.payload.len()", true, some []⟩
    (by simp)).1

end Pnet
